import Mathlib

/-!
Verification of the InferenceJDM inference engine (src/inference.py,
src/jdm_api.py, src/logger.py) via a shallow embedding.

Conventions of the embedding:
* Python numbers (edge weights, scores, annotation multipliers) are
  modelled as exact rationals (ℚ).
* The remote JDM service is modelled as an explicit oracle (`Env`)
  mapping each request to the HTTP response the service would return;
  the request/response handling code of `jdm_api.py` is translated on
  top of it.
* `async`/`await` with `asyncio.gather(..., return_exceptions=True)` is
  modelled by `Except Err` values: a task that raises is an
  `Except.error`, and the gather-then-filter pattern of the source
  becomes `collect_results` / `collect_strat`.
-/

/-- Exceptions that the translated code can raise.
`termNotFound` is `TermNotFoundError(term_name, status_code)` of
`jdm_api.py`; `attrNone` is the `AttributeError` raised by accessing
`.id` on the `None` returned by `get_relation_type_by_name`;
`transport` is the `ClientResponseError` from `raise_for_status()`;
`valueError` is the `ValueError` of `max([])`; `typeError` is a Python
`TypeError`. -/
inductive Err where
  | termNotFound (name : String) (status : ℤ)
  | attrNone
  | transport (status : ℤ)
  | valueError
  | typeError
deriving DecidableEq, Repr

/-- Decidable equality for `Except` results, so that concrete runs of
the embedded code can be checked by `decide`. -/
instance {e a : Type} [DecidableEq e] [DecidableEq a] :
    DecidableEq (Except e a) := fun x y =>
  match x, y with
  | Except.ok u, Except.ok v =>
    if h : u = v then isTrue (by rw [h])
    else isFalse (fun hh => by cases hh; exact h rfl)
  | Except.error u, Except.error v =>
    if h : u = v then isTrue (by rw [h])
    else isFalse (fun hh => by cases hh; exact h rfl)
  | Except.ok _, Except.error _ => isFalse (fun hh => by cases hh)
  | Except.error _, Except.ok _ => isFalse (fun hh => by cases hh)

/-- `Term` dataclass of `jdm_api.py` (graph node). -/
structure Term where
  id : ℤ
  name : String
  type : ℤ
  w : ℚ
  c : Option ℤ := none
  level : Option ℚ := none
  infoid : Option ℤ := none
  creationdate : Option String := none
  touchdate : Option String := none
deriving DecidableEq, Repr

/-- `RelationType` dataclass of `jdm_api.py` (catalog entry). -/
structure RelationType where
  id : ℤ
  name : String
  gpname : String
  help : String
  oppos : ℤ
  posyes : String
  posno : String
deriving DecidableEq, Repr

/-- `Relation` dataclass of `jdm_api.py`, in its enriched form: the
access port (`RelationResult._enrich_relations`) always resolves
`sujet`, `objet` and `relation_type` before a relation is handed to the
engine, so the embedding carries them as plain fields. -/
structure Relation where
  id : ℤ
  node1 : ℤ
  node2 : ℤ
  type : ℤ
  w : ℚ
  sujet : Term
  objet : Term
  relation_type : RelationType
deriving DecidableEq, Repr

/-- `EndpointParams` dataclass of `jdm_api.py` (query filter).
Field defaults are the dataclass defaults of the source. -/
structure EndpointParams where
  types_ids : Option (List ℤ) := none
  not_types_ids : Option (List ℤ) := none
  min_weight : Option ℤ := none
  max_weight : Option ℤ := none
  relation_fields : Option (List String) := none
  node_fields : Option (List String) := none
  limit : Option ℤ := some 0
  without_nodes : Bool := false
deriving DecidableEq, Repr

/-- `RelationResult` dataclass of `jdm_api.py` (already enriched). -/
structure RelationResult where
  nodes : List Term
  relations : List Relation
deriving DecidableEq, Repr

/-- `Inference` dataclass of `inference.py`.
The numeric fields are ℚ.  Note: in the Python source the three
defaulted fields are written with a trailing comma
(`score : float = 0.0,`), which makes each Python-level default a
1-tuple rather than a number; that dynamically-typed slip is modelled
separately below with `PyVal`.  This ℚ-typed record models the values
the engine actually constructs on its strategy paths, where every field
except `score` is passed explicitly. -/
structure Inference where
  sujet : String
  objet : String
  gen : String
  weight1 : ℚ
  weight2 : ℚ
  t : String
  rel : String
  score : ℚ := 0
  annotation_weight1 : ℚ := 1
  annotation_weight2 : ℚ := 1
deriving DecidableEq, Repr

/-- A Python runtime value, as far as the `Inference` dataclass default
slots need: a number or a tuple of values. -/
inductive PyVal where
  | num (q : ℚ)
  | tup (elems : List PyVal)

/-- Python evaluation of source line 24 of `inference.py`,
`score : float = 0.0,` — the trailing comma makes the annotated
assignment's right-hand side the 1-tuple `(0.0,)`. -/
def score_default : PyVal := PyVal.tup [PyVal.num 0]

/-- Python evaluation of source line 26 of `inference.py`,
`annotation_weight1 : float = 1.0,` — the trailing comma makes the
default the 1-tuple `(1.0,)`, not the float `1.0`. -/
def annotation_weight1_default : PyVal := PyVal.tup [PyVal.num 1]

/-- Python evaluation of source line 27 of `inference.py`,
`annotation_weight2 : float = 1.0,` — the trailing comma makes the
default the 1-tuple `(1.0,)`, not the float `1.0`. -/
def annotation_weight2_default : PyVal := PyVal.tup [PyVal.num 1]

/-- Python multiplication `*` restricted to the value shapes that can
reach `inf.annotation_weight1 * inf.annotation_weight2` in
`normalize_and_score`: number times number multiplies; a tuple times a
tuple (or a tuple times a non-integer) raises `TypeError`.  Sequence
repetition (tuple times `int`) cannot arise there, as no `int` reaches
that product. -/
def pyMul : PyVal → PyVal → Except Err PyVal
  | PyVal.num a, PyVal.num b => Except.ok (PyVal.num (a * b))
  | _, _ => Except.error Err.typeError

/-- HTTP response for `node_by_name`: status plus the parsed `Term`
(meaningful only when `status = 200`). -/
structure NodeResponse where
  status : ℤ
  data : Term
deriving DecidableEq, Repr

/-- HTTP response for the relation endpoints: status plus the parsed
and enriched `RelationResult` (meaningful only when `status = 200`). -/
structure RelationsResponse where
  status : ℤ
  data : RelationResult
deriving DecidableEq, Repr

/-- Oracle for the remote JDM service and the session state of
`JdmApi`: the relation-type catalog (fetched once per session) and the
responses to each request the engine can issue.  `annot` is the
annotation-signal lookup; the `Relation.get_annotation` /
`get_annotation_weight` methods are absent from the repository sources
(only their call sites exist), so the signal itself is modelled from
the spec. -/
structure Env where
  node_by_name : String → NodeResponse
  relation_types : List RelationType
  relations_from : String → EndpointParams → RelationsResponse
  relations_between : String → String → EndpointParams → RelationsResponse
  annot : Relation → Except Err (Option ℚ)

/-- `JdmApi.fetch_term_by_name`: status 200 parses a `Term`; every
other status (404, 500, anything else) raises
`TermNotFoundError(term, status)`. -/
def fetch_term_by_name (env : Env) (term : String) : Except Err Term :=
  let r := env.node_by_name term
  if r.status = 200 then Except.ok r.data
  else Except.error (Err.termNotFound term r.status)

/-- `JdmApi.fetch_relation` (the `relations/from/{term}` endpoint, the
only direction the engine uses): status 200 parses a `RelationResult`;
otherwise `raise_for_status()` raises a transport error. -/
def fetch_relation (env : Env) (term : String) (params : EndpointParams) :
    Except Err RelationResult :=
  let r := env.relations_from term params
  if r.status = 200 then Except.ok r.data
  else Except.error (Err.transport r.status)

/-- `JdmApi.fetch_relation_between` (`relations/from/{sujet}/to/{objet}`):
status 200 parses a `RelationResult`; otherwise a transport error.
`Term.relation_with` delegates here with the two term names. -/
def fetch_relation_between (env : Env) (sujet objet : String)
    (params : EndpointParams) : Except Err RelationResult :=
  let r := env.relations_between sujet objet params
  if r.status = 200 then Except.ok r.data
  else Except.error (Err.transport r.status)

/-- `JdmApi.get_relation_type_by_name`: scans the catalog in order and
returns the first entry whose `name` or `gpname` matches, else `None`. -/
def get_relation_type_by_name (catalog : List RelationType) (name : String) :
    Option RelationType :=
  catalog.find? (fun rt => rt.name == name || rt.gpname == name)

/-- The `self.api.get_relation_type_by_name(name).id` idiom of
`inference.py`: when the lookup returns `None`, accessing `.id` raises
an `AttributeError`. -/
def relation_type_id (env : Env) (name : String) : Except Err ℤ :=
  match get_relation_type_by_name env.relation_types name with
  | some rt => Except.ok rt.id
  | none => Except.error Err.attrNone

/-- Modelled from the spec: the fetch performed by the
`Relation.get_annotation` method, which is called by every strategy of
`inference.py` but is not defined anywhere in the repository sources —
it retrieves "an auxiliary per-edge confidence value" for an edge, and
may fail like any other lookup. -/
def fetch_annot (env : Env) (rel : Relation) : Except Err (Option ℚ) :=
  env.annot rel

/-- Modelled from the spec: `Relation.get_annotation_weight`, also
absent from the repository sources — the annotation-weight signal of an
edge, "defaulting to 1.0 if unavailable". -/
def get_annotation_weight (a : Option ℚ) : ℚ := a.getD 1

/-- `self.default_params = EndpointParams(min_weight=1, limit=100)`
from `RelationInferer.__init__`. -/
def default_params : EndpointParams :=
  { min_weight := some 1, limit := some 100 }

/-- The `params = self.default_params.copy(); params.types_ids = [i]`
idiom used for every hop of every strategy: a deep copy of the default
filter with only the type filter replaced. -/
def target_params (relId : ℤ) : EndpointParams :=
  { default_params with types_ids := some [relId] }

/-- Ordering used by `sorted(..., key=lambda r: r.w, reverse=True)`:
descending by weight.  CPython's `sorted` is stable; `insertionSort`
with this relation is the stable descending sort. -/
def wRel (a b : Relation) : Prop := b.w ≤ a.w

instance : DecidableRel wRel :=
  fun a b => inferInstanceAs (Decidable (b.w ≤ a.w))

instance : IsTotal Relation wRel :=
  ⟨fun a b => le_total b.w a.w⟩

instance : IsTrans Relation wRel :=
  ⟨fun _ _ _ hab hbc => le_trans hbc hab⟩

/-- Ordering used by `sorted(inferences, key=lambda r: r.score,
reverse=True)`: descending by score. -/
def scoreRel (a b : Inference) : Prop := b.score ≤ a.score

instance : DecidableRel scoreRel :=
  fun a b => inferInstanceAs (Decidable (b.score ≤ a.score))

instance : IsTotal Inference scoreRel :=
  ⟨fun a b => le_total b.score a.score⟩

instance : IsTrans Inference scoreRel :=
  ⟨fun _ _ _ hab hbc => le_trans hbc hab⟩

/-- `max(list)` in Python: raises `ValueError` on an empty list,
otherwise folds `max` over the elements. -/
def pyMax : List ℚ → Except Err ℚ
  | [] => Except.error Err.valueError
  | a :: l => Except.ok (l.foldl max a)

/-- `statistics.harmonic_mean([a, b])` for the two-element list the
code passes: `2 / (1/a + 1/b)`.  The source only calls it with both
arguments strictly positive. -/
def harmonic_mean (a b : ℚ) : ℚ := 2 / (1 / a + 1 / b)

/-- One truthiness-guarded normalization of `normalize_and_score`
(lines 60–61 of `inference.py`):
`inf.weight1 / max_w1 if max_w1 else 0` — Python's `if max_w1` tests
that the maximum is non-zero (truthiness), not that it is positive. -/
def norm_weight (m w : ℚ) : ℚ := if m ≠ 0 then w / m else 0

/-- The normalization rule as the spec words it, for comparison with
the source's `norm_weight`: `norm1 = weight1/max1` if `max1 > 0` else
`0`. -/
def norm_weight_specwords (m w : ℚ) : ℚ := if 0 < m then w / m else 0

/-- The harmonic-mean component of one candidate's score, lines 60–67
of `inference.py`: the two truthiness-guarded normalizations followed
by the positivity-guarded harmonic mean. -/
def harmonic_component (max_w1 max_w2 w1 w2 : ℚ) : ℚ :=
  if 0 < norm_weight max_w1 w1 ∧ 0 < norm_weight max_w2 w2 then
    harmonic_mean (norm_weight max_w1 w1) (norm_weight max_w2 w2)
  else 0

/-- The per-candidate mutation of `normalize_and_score`: set the score
to the harmonic component, then multiply by
`annotation_weight1 * annotation_weight2`. -/
def score_with (max_w1 max_w2 : ℚ) (inf : Inference) : Inference :=
  { inf with
    score := harmonic_component max_w1 max_w2 inf.weight1 inf.weight2 *
      (inf.annotation_weight1 * inf.annotation_weight2) }

/-- `RelationInferer.normalize_and_score`: compute the two run-local
maxima (Python's `max` raising `ValueError` on an empty run), then
rescore every candidate in place. -/
def normalize_and_score (inferences : List Inference) :
    Except Err (List Inference) := do
  let max_w1 ← pyMax (inferences.map (fun inf => inf.weight1))
  let max_w2 ← pyMax (inferences.map (fun inf => inf.weight2))
  Except.ok (inferences.map (score_with max_w1 max_w2))

/-- The gather-then-filter pattern closing every strategy
(`asyncio.gather(*tasks, return_exceptions=True)` followed by
`[r for r in results if r is not None and not isinstance(r, Exception)]`):
leaf tasks that raised, and leaf tasks that returned `None`, contribute
no candidate. -/
def collect_results (rs : List (Except Err (Option Inference))) :
    List Inference :=
  rs.filterMap (fun r =>
    match r with
    | Except.ok (some i) => some i
    | _ => none)

/-- Inner `get_final_rel` of `inference_by_generalization`: fetch the
first-hop edge's annotation signal, attempt the second hop from the
subject to the bridge term, and if it returns at least one edge, build
a Candidate from the first one (fetching its annotation signal too). -/
def gen_get_final_rel (env : Env) (sujet objet : Term)
    (params : EndpointParams) (rel : Relation) :
    Except Err (Option Inference) := do
  let a1 ← fetch_annot env rel
  let rel_annotation_weight := get_annotation_weight a1
  let result ← fetch_relation_between env sujet.name rel.objet.name params
  match result.relations with
  | final_relation :: _ => do
      let a2 ← fetch_annot env final_relation
      let final_annotation_weight := get_annotation_weight a2
      Except.ok (some
        { sujet := sujet.name
          gen := rel.objet.name
          objet := objet.name
          weight1 := rel.w
          weight2 := final_relation.w
          t := "isa"
          rel := final_relation.relation_type.name
          annotation_weight1 := rel_annotation_weight
          annotation_weight2 := final_annotation_weight })
  | [] => Except.ok none

/-- `RelationInferer.inference_by_generalization`: first hop `r_isa`
FROM the object, bridges sorted by descending weight, then one
`get_final_rel` leaf task per bridge. -/
def inference_by_generalization (env : Env) (sujet objet : Term)
    (final_rel_id : ℤ) : Except Err (List Inference) := do
  let isaId ← relation_type_id env "r_isa"
  let res ← fetch_relation env objet.name (target_params isaId)
  let r_isa_rel := List.insertionSort wRel res.relations
  let params := target_params final_rel_id
  Except.ok (collect_results
    (r_isa_rel.map (gen_get_final_rel env sujet objet params)))

/-- Inner `get_final_rel` of `inference_by_specialization`: second hop
from the bridge term to the object, tag `hypo`. -/
def spec_get_final_rel (env : Env) (sujet objet : Term)
    (params : EndpointParams) (rel : Relation) :
    Except Err (Option Inference) := do
  let a1 ← fetch_annot env rel
  let rel_annotation_weight := get_annotation_weight a1
  let result ← fetch_relation_between env rel.objet.name objet.name params
  match result.relations with
  | final_relation :: _ => do
      let a2 ← fetch_annot env final_relation
      let final_annotation_weight := get_annotation_weight a2
      Except.ok (some
        { sujet := sujet.name
          gen := rel.objet.name
          objet := objet.name
          weight1 := rel.w
          weight2 := final_relation.w
          t := "hypo"
          rel := final_relation.relation_type.name
          annotation_weight1 := rel_annotation_weight
          annotation_weight2 := final_annotation_weight })
  | [] => Except.ok none

/-- `RelationInferer.inference_by_specialization`: first hop `r_hypo`
FROM the subject. -/
def inference_by_specialization (env : Env) (sujet objet : Term)
    (final_rel_id : ℤ) : Except Err (List Inference) := do
  let hypoId ← relation_type_id env "r_hypo"
  let res ← fetch_relation env sujet.name (target_params hypoId)
  let r_hypo_rel := List.insertionSort wRel res.relations
  let params := target_params final_rel_id
  Except.ok (collect_results
    (r_hypo_rel.map (spec_get_final_rel env sujet objet params)))

/-- Inner `get_final_rel` of `inference_by_transitivity`: second hop
from the bridge term to the object, tag `transitivity`. -/
def trans_get_final_rel (env : Env) (sujet objet : Term)
    (params : EndpointParams) (rel : Relation) :
    Except Err (Option Inference) := do
  let a1 ← fetch_annot env rel
  let rel_annotation_weight := get_annotation_weight a1
  let result ← fetch_relation_between env rel.objet.name objet.name params
  match result.relations with
  | final_relation :: _ => do
      let a2 ← fetch_annot env final_relation
      let final_annotation_weight := get_annotation_weight a2
      Except.ok (some
        { sujet := sujet.name
          gen := rel.objet.name
          objet := objet.name
          weight1 := rel.w
          weight2 := final_relation.w
          t := "transitivity"
          rel := final_relation.relation_type.name
          annotation_weight1 := rel_annotation_weight
          annotation_weight2 := final_annotation_weight })
  | [] => Except.ok none

/-- `RelationInferer.inference_by_transitivity`: first hop of the
target relation type FROM the subject; the same filter object serves
both hops in the source. -/
def inference_by_transitivity (env : Env) (sujet objet : Term)
    (final_rel_id : ℤ) : Except Err (List Inference) := do
  let params := target_params final_rel_id
  let res ← fetch_relation env sujet.name params
  let r_trans_rel := List.insertionSort wRel res.relations
  Except.ok (collect_results
    (r_trans_rel.map (trans_get_final_rel env sujet objet params)))

/-- Inner `get_final_rel` of `inference_by_synonymy`: second hop from
the bridge term to the object, tag `syn`. -/
def syn_get_final_rel (env : Env) (sujet objet : Term)
    (params : EndpointParams) (middle_rel : Relation) :
    Except Err (Option Inference) := do
  let a1 ← fetch_annot env middle_rel
  let rel_annotation_weight := get_annotation_weight a1
  let result ← fetch_relation_between env middle_rel.objet.name objet.name params
  match result.relations with
  | final_relation :: _ => do
      let a2 ← fetch_annot env final_relation
      let final_annotation_weight := get_annotation_weight a2
      Except.ok (some
        { sujet := sujet.name
          gen := middle_rel.objet.name
          objet := objet.name
          weight1 := middle_rel.w
          weight2 := final_relation.w
          t := "syn"
          rel := final_relation.relation_type.name
          annotation_weight1 := rel_annotation_weight
          annotation_weight2 := final_annotation_weight })
  | [] => Except.ok none

/-- `RelationInferer.inference_by_synonymy`: first hop `r_syn` FROM the
subject. -/
def inference_by_synonymy (env : Env) (sujet objet : Term)
    (final_rel_id : ℤ) : Except Err (List Inference) := do
  let synId ← relation_type_id env "r_syn"
  let res ← fetch_relation env sujet.name (target_params synId)
  let r_syn_rel := List.insertionSort wRel res.relations
  let params := target_params final_rel_id
  Except.ok (collect_results
    (r_syn_rel.map (syn_get_final_rel env sujet objet params)))

/-- The per-strategy arm of `run_all_inferences`: a strategy that
raised an exception is reported and contributes nothing; a successful
strategy contributes its whole candidate list (`inferences.extend`). -/
def collect_strat : Except Err (List Inference) → List Inference
  | Except.ok l => l
  | Except.error _ => []

/-- `RelationInferer.run_all_inferences`: gather the four strategies
(generalization, specialization, transitivity, synonymy, in task
order) with `return_exceptions=True` and concatenate the candidate
lists of the strategies that did not raise. -/
def run_all_inferences (env : Env) (sujet objet : Term) (rel_id : ℤ) :
    List Inference :=
  collect_strat (inference_by_generalization env sujet objet rel_id) ++
  collect_strat (inference_by_specialization env sujet objet rel_id) ++
  collect_strat (inference_by_transitivity env sujet objet rel_id) ++
  collect_strat (inference_by_synonymy env sujet objet rel_id)

/-- Rendering outcome of `InferenceLogger.render_inferences`
(`logger.py`): the distinct no-result line, or one numbered line per
candidate (numbering starts at 1).  The purely typographic styling is
not modelled. -/
inductive Rendered where
  | noResult
  | lines (entries : List (Nat × Inference))
deriving DecidableEq, Repr

/-- `InferenceLogger.render_inferences`: an empty candidate list takes
the `_render_no_result` path; a non-empty list renders one line per
candidate via `enumerate(inferences, 1)`. -/
def render_inferences (inferences : List Inference) : Rendered :=
  if inferences.length = 0 then Rendered.noResult
  else Rendered.lines (inferences.enum.map (fun p => (p.1 + 1, p.2)))

/-- The `limit=10` default of `RelationInferer.__init__`. -/
def default_limit : Nat := 10

/-- The ranking step of `run`:
`sorted(inferences, key=lambda r: r.score, reverse=True)[:self.limit]` —
stable descending sort by score, truncated to the first `limit`
entries. -/
def rank (limit : Nat) (l : List Inference) : List Inference :=
  (List.insertionSort scoreRel l).take limit

/-- `RelationInferer.run`: resolve the subject term, the object term
and the target relation-type id (any failure here is re-raised to the
caller); run the four strategies; hand an empty aggregate straight to
the renderer; otherwise score, rank and render. -/
def run (env : Env) (limit : Nat)
    (sujet_name relation_name objet_name : String) : Except Err Rendered := do
  let sujet ← fetch_term_by_name env sujet_name
  let objet ← fetch_term_by_name env objet_name
  let rel_id ← relation_type_id env relation_name
  let inferences := run_all_inferences env sujet objet rel_id
  if inferences.length = 0 then
    return render_inferences inferences
  else
    let scored ← normalize_and_score inferences
    return render_inferences (rank limit scored)

/-- Filtering by any fixed score value commutes with `orderedInsert`
under the descending-score relation: the inserted element lands before
every element of equal score, so same-score elements keep their
relative order. -/
theorem filter_score_orderedInsert (c : ℚ) (a : Inference)
    (l : List Inference) :
    (List.orderedInsert scoreRel a l).filter (fun i => decide (i.score = c)) =
      ((a :: l).filter (fun i => decide (i.score = c))) := by
  induction l with
  | nil => rfl
  | cons b t ih =>
    by_cases h : scoreRel a b
    · rw [List.orderedInsert, if_pos h]
    · rw [List.orderedInsert, if_neg h]
      have hab : a.score < b.score := lt_of_not_le h
      by_cases hpa : a.score = c <;> by_cases hpb : b.score = c
      · exact absurd (hpa.trans hpb.symm) (ne_of_lt hab)
      · simp [List.filter_cons, ih, hpa, hpb]
      · simp [List.filter_cons, ih, hpa, hpb]
      · simp [List.filter_cons, ih, hpa, hpb]

/-- Stability of the embedded sort: sorting descending by score does
not reorder elements of equal score. -/
theorem filter_score_insertionSort (c : ℚ) (l : List Inference) :
    (List.insertionSort scoreRel l).filter (fun i => decide (i.score = c)) =
      l.filter (fun i => decide (i.score = c)) := by
  induction l with
  | nil => rfl
  | cons a t ih =>
    rw [List.insertionSort, filter_score_orderedInsert]
    simp [List.filter_cons, ih]

/-- Claim C3: after scoring, `run` sorts the candidates in descending
order of score (stable on ties, so elements of equal score keep their
original relative order) and keeps the first `limit` entries; the
output length is `min (number of candidates) limit`, and the
caller-configurable limit defaults to 10. -/
theorem c3_rank_sorts_and_truncates (l : List Inference) (limit : Nat) :
    (rank limit l).length = min l.length limit ∧
    List.Sorted scoreRel (List.insertionSort scoreRel l) ∧
    (List.insertionSort scoreRel l).Perm l ∧
    (∀ c : ℚ,
      (List.insertionSort scoreRel l).filter (fun i => decide (i.score = c)) =
        l.filter (fun i => decide (i.score = c))) ∧
    rank limit l = (List.insertionSort scoreRel l).take limit ∧
    default_limit = 10 := by
  refine ⟨?_, List.sorted_insertionSort scoreRel l,
    List.perm_insertionSort scoreRel l,
    fun c => filter_score_insertionSort c l, rfl, rfl⟩
  rw [rank, List.length_take, List.length_insertionSort, Nat.min_comm]

/-- Claim C8: the ranking operation (stable descending sort followed by
truncation to `limit`) is idempotent — applied to its own output it
returns that output unchanged. -/
theorem c8_rank_idempotent (limit : Nat) (l : List Inference) :
    rank limit (rank limit l) = rank limit l := by
  have hs : List.Sorted scoreRel ((List.insertionSort scoreRel l).take limit) :=
    (List.sorted_insertionSort scoreRel l).sublist (List.take_sublist _ _)
  simp only [rank]
  rw [hs.insertionSort_eq, List.take_take, Nat.min_self]

/-- Claim C9: contrary to the spec, an `Inference` constructed without
explicit annotation arguments does not carry the number `1.0` in its
annotation slots: the trailing commas on lines 26–27 of `inference.py`
make each dataclass default the 1-tuple `(1.0,)`, which is not a
number and which `TypeError`s when used as a multiplicative factor. -/
theorem c9_default_annotation_weights_are_tuples :
    annotation_weight1_default = PyVal.tup [PyVal.num 1] ∧
    annotation_weight2_default = PyVal.tup [PyVal.num 1] ∧
    annotation_weight1_default ≠ PyVal.num 1 ∧
    annotation_weight2_default ≠ PyVal.num 1 ∧
    pyMul annotation_weight1_default annotation_weight2_default =
      Except.error Err.typeError := by
  refine ⟨rfl, rfl, ?_, ?_, rfl⟩ <;> intro h <;> exact PyVal.noConfusion h

/-- The seed of a `max`-fold never exceeds the fold's result. -/
theorem foldl_max_init_le (l : List ℚ) : ∀ a : ℚ, a ≤ l.foldl max a := by
  induction l with
  | nil => intro a; simp
  | cons b t ih => intro a; exact le_trans (le_max_left a b) (ih (max a b))

/-- Every member of the folded list is bounded by the `max`-fold. -/
theorem le_foldl_max_of_mem (l : List ℚ) :
    ∀ (a x : ℚ), x ∈ l → x ≤ l.foldl max a := by
  induction l with
  | nil => intro a x hx; cases hx
  | cons b t ih =>
    intro a x hx
    rcases List.mem_cons.mp hx with rfl | hx
    · exact le_trans (le_max_right a x) (foldl_max_init_le t (max a x))
    · exact ih (max a b) x hx

/-- A `max`-fold is bounded by any common upper bound of its seed and
its elements. -/
theorem foldl_max_le (c : ℚ) :
    ∀ (l : List ℚ) (a : ℚ), a ≤ c → (∀ x ∈ l, x ≤ c) → l.foldl max a ≤ c := by
  intro l
  induction l with
  | nil => intro a ha _; simpa using ha
  | cons b t ih =>
    intro a ha hl
    exact ih (max a b) (max_le ha (hl b (List.mem_cons_self b t)))
      (fun x hx => hl x (List.mem_cons_of_mem b hx))

/-- The truthiness-guarded normalization maps a nonnegative weight
bounded by the maximum into `[0, 1]`. -/
theorem norm_weight_unit (m w : ℚ) (h0 : 0 ≤ w) (hm : w ≤ m) :
    0 ≤ norm_weight m w ∧ norm_weight m w ≤ 1 := by
  by_cases hmz : m = 0
  · simp [norm_weight, hmz]
  · have hmpos : 0 < m := lt_of_le_of_ne (le_trans h0 hm) (Ne.symm hmz)
    rw [norm_weight, if_pos hmz]
    exact ⟨div_nonneg h0 (le_of_lt hmpos), (div_le_one hmpos).mpr hm⟩

/-- With nonnegative weights bounded by the two maxima, the
harmonic-mean component of a score lies in `[0, 1]`. -/
theorem harmonic_component_unit (m1 m2 w1 w2 : ℚ)
    (h1 : 0 ≤ w1) (h2 : 0 ≤ w2) (hm1 : w1 ≤ m1) (hm2 : w2 ≤ m2) :
    0 ≤ harmonic_component m1 m2 w1 w2 ∧
      harmonic_component m1 m2 w1 w2 ≤ 1 := by
  obtain ⟨hn1a, hn1b⟩ := norm_weight_unit m1 w1 h1 hm1
  obtain ⟨hn2a, hn2b⟩ := norm_weight_unit m2 w2 h2 hm2
  rw [harmonic_component]
  by_cases hpos : 0 < norm_weight m1 w1 ∧ 0 < norm_weight m2 w2
  · rw [if_pos hpos, harmonic_mean]
    have hi1 : 1 ≤ 1 / norm_weight m1 w1 :=
      (le_div_iff₀ hpos.1).mpr (by linarith)
    have hi2 : 1 ≤ 1 / norm_weight m2 w2 :=
      (le_div_iff₀ hpos.2).mpr (by linarith)
    have hs : 0 < 1 / norm_weight m1 w1 + 1 / norm_weight m2 w2 := by linarith
    exact ⟨le_of_lt (div_pos two_pos hs), (div_le_one hs).mpr (by linarith)⟩
  · rw [if_neg hpos]
    exact ⟨le_refl 0, zero_le_one⟩

/-- Claim C2 (amended): for a non-empty candidate list whose weights
are all nonnegative and whose annotation multipliers all lie in
`[0, 1]`, `normalize_and_score` succeeds and yields scores in `[0, 1]`;
under the nonnegative-weight hypothesis alone, every candidate's
harmonic-mean component lies in `[0, 1]`. -/
theorem c2_scores_in_unit_interval (a : Inference) (t : List Inference)
    (hw : ∀ inf ∈ a :: t, 0 ≤ inf.weight1 ∧ 0 ≤ inf.weight2)
    (ha : ∀ inf ∈ a :: t,
      (0 ≤ inf.annotation_weight1 ∧ inf.annotation_weight1 ≤ 1) ∧
      (0 ≤ inf.annotation_weight2 ∧ inf.annotation_weight2 ≤ 1)) :
    normalize_and_score (a :: t) =
      Except.ok ((a :: t).map
        (score_with ((t.map (fun i => i.weight1)).foldl max a.weight1)
          ((t.map (fun i => i.weight2)).foldl max a.weight2))) ∧
    (∀ inf ∈ (a :: t).map
        (score_with ((t.map (fun i => i.weight1)).foldl max a.weight1)
          ((t.map (fun i => i.weight2)).foldl max a.weight2)),
      0 ≤ inf.score ∧ inf.score ≤ 1) ∧
    (∀ inf ∈ a :: t,
      0 ≤ harmonic_component
          ((t.map (fun i => i.weight1)).foldl max a.weight1)
          ((t.map (fun i => i.weight2)).foldl max a.weight2)
          inf.weight1 inf.weight2 ∧
        harmonic_component
          ((t.map (fun i => i.weight1)).foldl max a.weight1)
          ((t.map (fun i => i.weight2)).foldl max a.weight2)
          inf.weight1 inf.weight2 ≤ 1) := by
  have hle1 : ∀ inf ∈ a :: t,
      inf.weight1 ≤ (t.map (fun i => i.weight1)).foldl max a.weight1 := by
    intro inf hinf
    rcases List.mem_cons.mp hinf with rfl | hmem
    · exact foldl_max_init_le _ _
    · exact le_foldl_max_of_mem _ _ _ (List.mem_map_of_mem _ hmem)
  have hle2 : ∀ inf ∈ a :: t,
      inf.weight2 ≤ (t.map (fun i => i.weight2)).foldl max a.weight2 := by
    intro inf hinf
    rcases List.mem_cons.mp hinf with rfl | hmem
    · exact foldl_max_init_le _ _
    · exact le_foldl_max_of_mem _ _ _ (List.mem_map_of_mem _ hmem)
  have hcomp : ∀ inf ∈ a :: t,
      0 ≤ harmonic_component
          ((t.map (fun i => i.weight1)).foldl max a.weight1)
          ((t.map (fun i => i.weight2)).foldl max a.weight2)
          inf.weight1 inf.weight2 ∧
        harmonic_component
          ((t.map (fun i => i.weight1)).foldl max a.weight1)
          ((t.map (fun i => i.weight2)).foldl max a.weight2)
          inf.weight1 inf.weight2 ≤ 1 := by
    intro inf hinf
    exact harmonic_component_unit _ _ _ _ (hw inf hinf).1 (hw inf hinf).2
      (hle1 inf hinf) (hle2 inf hinf)
  refine ⟨rfl, ?_, hcomp⟩
  intro inf hinf
  rw [List.mem_map] at hinf
  obtain ⟨src, hsrc, rfl⟩ := hinf
  obtain ⟨hb0, hb1⟩ := hcomp src hsrc
  obtain ⟨⟨ha10, ha11⟩, ⟨ha20, ha21⟩⟩ := ha src hsrc
  constructor
  · exact mul_nonneg hb0 (mul_nonneg ha10 ha20)
  · exact mul_le_one₀ hb1 (mul_nonneg ha10 ha20) (mul_le_one₀ ha11 ha20 ha21)

/-- Claim C2 (counterexample to the claim as stated): with annotation
multipliers that are `≤ 1` but negative the score escapes `[0, 1]`
(first run: score 4), and with negative weights the harmonic-mean
component alone escapes `[0, 1]` (second run: score and component
4/3). -/
theorem c2_counterexample :
    normalize_and_score [(⟨"s", "o", "g", 1, 1, "isa", "r", 0, -2, -2⟩ : Inference)] =
      Except.ok [(⟨"s", "o", "g", 1, 1, "isa", "r", 4, -2, -2⟩ : Inference)] ∧
    ((-2 : ℚ) ≤ 1 ∧ (-2 : ℚ) ≤ 1) ∧ ¬ ((4 : ℚ) ≤ 1) ∧
    normalize_and_score
      [(⟨"s", "o", "g", -4, 1, "isa", "r", 0, 1, 1⟩ : Inference),
       (⟨"s", "o", "g", -2, 1, "isa", "r", 0, 1, 1⟩ : Inference)] =
      Except.ok
      [(⟨"s", "o", "g", -4, 1, "isa", "r", 4 / 3, 1, 1⟩ : Inference),
       (⟨"s", "o", "g", -2, 1, "isa", "r", 1, 1, 1⟩ : Inference)] ∧
    harmonic_component (-2) 1 (-4) 1 = 4 / 3 ∧ ¬ ((4 : ℚ) / 3 ≤ 1) := by
  refine ⟨?_, by norm_num, by norm_num, ?_, ?_, by norm_num⟩
  · show Except.ok _ = _
    norm_num [score_with, harmonic_component, norm_weight, harmonic_mean]
  · show Except.ok _ = _
    norm_num [score_with, harmonic_component, norm_weight, harmonic_mean]
  · norm_num [harmonic_component, norm_weight, harmonic_mean]

/-- Computation rule for a successful monadic step of the embedding. -/
theorem except_bind_ok {e a b : Type} (x : a) (k : a → Except e b) :
    (Except.ok x >>= k) = k x := rfl

/-- Computation rule for a failing monadic step of the embedding. -/
theorem except_bind_error {e a b : Type} (err : e) (k : a → Except e b) :
    ((Except.error err : Except e a) >>= k) = Except.error err := rfl

/-- Claim C6 (amended): the truthiness guard of the source normalizes
by division whenever the maximum is non-zero (not merely positive) and
yields 0 when the maximum is 0; on a non-empty run `normalize_and_score`
always succeeds, and when all `weight1` (resp. `weight2`) values are 0
the corresponding maximum is 0 and every normalization is 0 — no
division by zero occurs. -/
theorem c6_norm_guard (a : Inference) (t : List Inference) :
    (∀ m w : ℚ, m ≠ 0 → norm_weight m w = w / m) ∧
    (∀ w : ℚ, norm_weight 0 w = 0) ∧
    normalize_and_score (a :: t) =
      Except.ok ((a :: t).map
        (score_with ((t.map (fun i => i.weight1)).foldl max a.weight1)
          ((t.map (fun i => i.weight2)).foldl max a.weight2))) ∧
    ((∀ inf ∈ a :: t, inf.weight1 = 0) →
      (t.map (fun i => i.weight1)).foldl max a.weight1 = 0 ∧
      ∀ inf ∈ a :: t,
        norm_weight ((t.map (fun i => i.weight1)).foldl max a.weight1)
          inf.weight1 = 0) ∧
    ((∀ inf ∈ a :: t, inf.weight2 = 0) →
      (t.map (fun i => i.weight2)).foldl max a.weight2 = 0 ∧
      ∀ inf ∈ a :: t,
        norm_weight ((t.map (fun i => i.weight2)).foldl max a.weight2)
          inf.weight2 = 0) := by
  refine ⟨fun m w h => by rw [norm_weight, if_pos h],
    fun w => by simp [norm_weight], rfl, ?_, ?_⟩
  · intro hz
    have hm0 : (t.map (fun i => i.weight1)).foldl max a.weight1 = 0 := by
      refine le_antisymm (foldl_max_le 0 _ _
        (le_of_eq (hz a (List.mem_cons_self a t))) ?_) ?_
      · intro x hx
        obtain ⟨i, hi, rfl⟩ := List.mem_map.mp hx
        exact le_of_eq (hz i (List.mem_cons_of_mem a hi))
      · calc (0 : ℚ) = a.weight1 := (hz a (List.mem_cons_self a t)).symm
          _ ≤ _ := foldl_max_init_le _ _
    refine ⟨hm0, fun inf _ => ?_⟩
    rw [hm0]
    simp [norm_weight]
  · intro hz
    have hm0 : (t.map (fun i => i.weight2)).foldl max a.weight2 = 0 := by
      refine le_antisymm (foldl_max_le 0 _ _
        (le_of_eq (hz a (List.mem_cons_self a t))) ?_) ?_
      · intro x hx
        obtain ⟨i, hi, rfl⟩ := List.mem_map.mp hx
        exact le_of_eq (hz i (List.mem_cons_of_mem a hi))
      · calc (0 : ℚ) = a.weight2 := (hz a (List.mem_cons_self a t)).symm
          _ ≤ _ := foldl_max_init_le _ _
    refine ⟨hm0, fun inf _ => ?_⟩
    rw [hm0]
    simp [norm_weight]

/-- Witness for C6: the all-zero-weight run evaluated on a concrete
one-candidate list has maximum 0 and raises nothing. -/
theorem c6_norm_guard_witness :
    (List.map (fun i => i.weight1) ([] : List Inference)).foldl max
        (Inference.mk "s" "o" "g" 0 0 "isa" "r" 0 1 1).weight1 = 0 :=
  ((c6_norm_guard (Inference.mk "s" "o" "g" 0 0 "isa" "r" 0 1 1) []).2.2.2.1
    (by intro inf hinf; rcases List.mem_singleton.mp hinf with rfl; rfl)).1

/-- Claim C6 (counterexample to the claim as stated): the claim says
`norm1 = 0` unless `max1 > 0`, but the source tests `max1 != 0`
(truthiness); on a run whose maximum is negative the code divides,
yielding a normalization of 1 and a score of 1 where the claim
predicts 0. -/
theorem c6_counterexample :
    norm_weight (-2) (-2) = 1 ∧
    norm_weight_specwords (-2) (-2) = 0 ∧
    ¬ ((1 : ℚ) = 0) ∧
    normalize_and_score
        [(⟨"s", "o", "g", -2, -2, "isa", "r", 0, 1, 1⟩ : Inference)] =
      Except.ok [(⟨"s", "o", "g", -2, -2, "isa", "r", 1, 1, 1⟩ : Inference)] := by
  refine ⟨by norm_num [norm_weight], by norm_num [norm_weight_specwords],
    by norm_num, ?_⟩
  show Except.ok _ = _
  norm_num [score_with, harmonic_component, norm_weight, harmonic_mean]

/-- Discriminator for the error taxonomy: is this error a
`TermNotFoundError`? -/
def Err.isTermNotFound : Err → Bool
  | Err.termNotFound _ _ => true
  | _ => false

/-- Claim C4 (amended): a failure while resolving the subject or the
object term propagates immediately as `TermNotFoundError` carrying the
offending name and the upstream status; a failed relation-type lookup
propagates immediately as an (untyped) attribute error.  In every case
the error is independent of the relation-fetch and annotation parts of
the oracle — quantifying over them shows no strategy or second-hop
fetch is ever consulted. -/
theorem c4_resolution_failure
    (nb : String → NodeResponse) (cat : List RelationType)
    (f : String → EndpointParams → RelationsResponse)
    (g : String → String → EndpointParams → RelationsResponse)
    (an : Relation → Except Err (Option ℚ))
    (limit : Nat) (sname rname oname : String) :
    ((nb sname).status ≠ 200 →
      run (Env.mk nb cat f g an) limit sname rname oname =
        Except.error (Err.termNotFound sname (nb sname).status)) ∧
    ((nb sname).status = 200 → (nb oname).status ≠ 200 →
      run (Env.mk nb cat f g an) limit sname rname oname =
        Except.error (Err.termNotFound oname (nb oname).status)) ∧
    ((nb sname).status = 200 → (nb oname).status = 200 →
      get_relation_type_by_name cat rname = none →
      run (Env.mk nb cat f g an) limit sname rname oname =
        Except.error Err.attrNone) := by
  refine ⟨?_, ?_, ?_⟩
  · intro h
    simp only [run, fetch_term_by_name]
    rw [if_neg h, except_bind_error]
  · intro hs ho
    simp only [run, fetch_term_by_name]
    rw [if_pos hs, except_bind_ok, if_neg ho, except_bind_error]
  · intro hs ho hr
    simp only [run, fetch_term_by_name, relation_type_id]
    rw [if_pos hs, except_bind_ok, if_pos ho, except_bind_ok]
    show (match get_relation_type_by_name cat rname with
      | some rt => Except.ok rt.id
      | none => Except.error Err.attrNone) >>= _ = _
    rw [hr, except_bind_error]

/-- Subject term of the concrete runs. -/
def tmA : Term := ⟨1, "pizza", 1, 10, none, none, none, none, none⟩

/-- Object term of the concrete runs. -/
def tmB : Term := ⟨2, "mozza", 1, 10, none, none, none, none, none⟩

/-- Node oracle where both terms resolve. -/
def c4nb_ok : String → NodeResponse :=
  fun n => if n = "pizza" then ⟨200, tmA⟩ else ⟨200, tmB⟩

/-- Node oracle where the subject lookup returns 404. -/
def c4nb_subj_fail : String → NodeResponse :=
  fun n => if n = "pizza" then ⟨404, tmA⟩ else ⟨200, tmB⟩

/-- Node oracle where the object lookup returns 500. -/
def c4nb_obj_fail : String → NodeResponse :=
  fun n => if n = "mozza" then ⟨500, tmB⟩ else ⟨200, tmA⟩

/-- Empty relation-type catalog, so the relation-type lookup fails. -/
def c4cat : List RelationType := []

/-- Relation oracle returning empty edge sets. -/
def c4from : String → EndpointParams → RelationsResponse :=
  fun _ _ => ⟨200, ⟨[], []⟩⟩

/-- Second-hop oracle returning empty edge sets. -/
def c4between : String → String → EndpointParams → RelationsResponse :=
  fun _ _ _ => ⟨200, ⟨[], []⟩⟩

/-- No annotation signal available. -/
def c4an : Relation → Except Err (Option ℚ) := fun _ => Except.ok none

/-- Witness for C4: the three resolution-failure scenarios on concrete
oracles. -/
theorem c4_resolution_failure_witness :
    run (Env.mk c4nb_subj_fail c4cat c4from c4between c4an) 10
        "pizza" "r_has_part" "mozza" =
      Except.error (Err.termNotFound "pizza" 404) ∧
    run (Env.mk c4nb_obj_fail c4cat c4from c4between c4an) 10
        "pizza" "r_has_part" "mozza" =
      Except.error (Err.termNotFound "mozza" 500) ∧
    run (Env.mk c4nb_ok c4cat c4from c4between c4an) 10
        "pizza" "r_has_part" "mozza" =
      Except.error Err.attrNone :=
  ⟨(c4_resolution_failure c4nb_subj_fail c4cat c4from c4between c4an 10
      "pizza" "r_has_part" "mozza").1 (by decide),
   (c4_resolution_failure c4nb_obj_fail c4cat c4from c4between c4an 10
      "pizza" "r_has_part" "mozza").2.1 (by decide) (by decide),
   (c4_resolution_failure c4nb_ok c4cat c4from c4between c4an 10
      "pizza" "r_has_part" "mozza").2.2 (by decide) (by decide) rfl⟩

/-- Claim C4 (counterexample to the claim as stated): when the target
relation-type resolution fails, the propagated error is the attribute
error of `.id` on `None`, not a `NotFoundError` — it is typed neither
with the offending name nor with an upstream status. -/
theorem c4_counterexample :
    run (Env.mk c4nb_ok c4cat c4from c4between c4an) 10
        "pizza" "r_isa" "mozza" = Except.error Err.attrNone ∧
    Err.isTermNotFound Err.attrNone = false := ⟨rfl, rfl⟩

/-- Claim C7: when the aggregate of the four strategies is empty, `run`
hands the empty list to the renderer, which produces the distinct
no-evidence rendering (different from every non-empty rendering), and
returns successfully; `normalize_and_score` — which fails on an empty
list (`max([])` raises) — is never invoked, as witnessed by `run`
succeeding. -/
theorem c7_empty_aggregate (env : Env) (limit : Nat)
    (sname rname oname : String) (s o : Term) (relId : ℤ)
    (hs : fetch_term_by_name env sname = Except.ok s)
    (ho : fetch_term_by_name env oname = Except.ok o)
    (hr : relation_type_id env rname = Except.ok relId)
    (hempty : run_all_inferences env s o relId = []) :
    run env limit sname rname oname = Except.ok Rendered.noResult ∧
    render_inferences [] = Rendered.noResult ∧
    (∀ l : List Inference, l ≠ [] → render_inferences l ≠ Rendered.noResult) ∧
    normalize_and_score [] = Except.error Err.valueError := by
  refine ⟨?_, rfl, ?_, rfl⟩
  · simp only [run]
    rw [hs, except_bind_ok, ho, except_bind_ok, hr, except_bind_ok, hempty]
    rfl
  · intro l hl
    rw [render_inferences, if_neg (fun h => hl (List.length_eq_zero.mp h))]
    exact fun h => Rendered.noConfusion h

/-- Oracle for the C7 witness: both terms and the target relation type
resolve, but no strategy finds any edge. -/
def c7env : Env :=
  { node_by_name := fun n => if n = "pizza" then ⟨200, tmA⟩ else ⟨200, tmB⟩
    relation_types := [⟨5, "r_has_part", "has_part", "", 0, "", ""⟩]
    relations_from := fun _ _ => ⟨200, ⟨[], []⟩⟩
    relations_between := fun _ _ _ => ⟨200, ⟨[], []⟩⟩
    annot := fun _ => Except.ok none }

/-- Witness for C7: a concrete evidence-free run renders the
no-evidence output and succeeds. -/
theorem c7_empty_aggregate_witness :
    run c7env 10 "pizza" "r_has_part" "mozza" = Except.ok Rendered.noResult :=
  (c7_empty_aggregate c7env 10 "pizza" "r_has_part" "mozza" tmA tmB 5
    rfl rfl rfl rfl).1

/-- Each gathered leaf result of a strategy contributes to the
surviving-candidate list exactly when it is a successful
non-`None` return, and then contributes exactly one candidate. -/
theorem collect_results_length (rs : List (Except Err (Option Inference))) :
    (collect_results rs).length = rs.countP (fun r =>
      match r with
      | Except.ok (some _) => true
      | _ => false) := by
  induction rs with
  | nil => rfl
  | cons r t ih =>
    simp only [collect_results] at ih ⊢
    cases r with
    | ok v =>
      cases v with
      | some i => simp [List.filterMap_cons, List.countP_cons, ih]
      | none => simp [List.filterMap_cons, List.countP_cons, ih]
    | error e => simp [List.filterMap_cons, List.countP_cons, ih]

/-- Claim C1: for a first-hop edge whose second-hop fetch returns at
least one edge, the generalization leaf task emits exactly one
candidate, built from the first returned second-hop edge, storing the
two fetched annotation-weight signals (each defaulting to 1 via
`Option.getD` when the signal is unavailable) as the candidate's two
annotation multipliers; the strategy maps one such leaf task over every
sorted first-hop edge and keeps exactly one candidate per successful
leaf. -/
theorem c1_gen_candidate (env : Env) (s o : Term) (params : EndpointParams)
    (rel : Relation) (a1 : Option ℚ) (res : RelationResult)
    (fr : Relation) (rest : List Relation) (a2 : Option ℚ)
    (isaId finalId : ℤ) (fres : RelationResult)
    (h1 : env.annot rel = Except.ok a1)
    (h2 : fetch_relation_between env s.name rel.objet.name params =
      Except.ok res)
    (h3 : res.relations = fr :: rest)
    (h4 : env.annot fr = Except.ok a2)
    (hisa : relation_type_id env "r_isa" = Except.ok isaId)
    (hfetch : fetch_relation env o.name (target_params isaId) =
      Except.ok fres) :
    gen_get_final_rel env s o params rel =
      Except.ok (some
        { sujet := s.name
          gen := rel.objet.name
          objet := o.name
          weight1 := rel.w
          weight2 := fr.w
          t := "isa"
          rel := fr.relation_type.name
          annotation_weight1 := a1.getD 1
          annotation_weight2 := a2.getD 1 }) ∧
    inference_by_generalization env s o finalId =
      Except.ok (collect_results
        ((List.insertionSort wRel fres.relations).map
          (gen_get_final_rel env s o (target_params finalId)))) ∧
    (∀ rs : List (Except Err (Option Inference)),
      (collect_results rs).length = rs.countP (fun r =>
        match r with
        | Except.ok (some _) => true
        | _ => false)) := by
  refine ⟨?_, ?_, collect_results_length⟩
  · simp only [gen_get_final_rel, fetch_annot]
    rw [h1, except_bind_ok, h2, except_bind_ok, h3]
    show (env.annot fr >>= _ : Except Err (Option Inference)) = _
    rw [h4, except_bind_ok]
    rfl
  · simp only [inference_by_generalization]
    rw [hisa, except_bind_ok, hfetch, except_bind_ok]

/-- Bridge term of the concrete generalization run. -/
def tmF : Term := ⟨3, "fromage", 1, 10, none, none, none, none, none⟩

/-- Catalog entry for the `r_isa` relation type. -/
def rtIsa : RelationType := ⟨1, "r_isa", "isa", "", 0, "", ""⟩

/-- Catalog entry for the target `r_has_part` relation type. -/
def rtHasPart : RelationType := ⟨5, "r_has_part", "has_part", "", 0, "", ""⟩

/-- First-hop edge `mozza --r_isa--> fromage`, weight 50. -/
def e1 : Relation := ⟨100, 2, 3, 1, 50, tmB, tmF, rtIsa⟩

/-- Second-hop edge `pizza --r_has_part--> fromage`, weight 30. -/
def f1 : Relation := ⟨101, 1, 3, 5, 30, tmA, tmF, rtHasPart⟩

/-- Oracle for the C1 witness: one first-hop edge from the object, one
confirming second-hop edge from the subject; the second-hop edge has
an annotation signal (value 2), the first-hop edge has none. -/
def c1env : Env :=
  { node_by_name := fun n => if n = "pizza" then ⟨200, tmA⟩ else ⟨200, tmB⟩
    relation_types := [rtIsa, rtHasPart]
    relations_from := fun n p =>
      if n = "mozza" ∧ p = target_params 1 then ⟨200, ⟨[], [e1]⟩⟩
      else ⟨200, ⟨[], []⟩⟩
    relations_between := fun s2 o2 p =>
      if s2 = "pizza" ∧ o2 = "fromage" ∧ p = target_params 5 then
        ⟨200, ⟨[], [f1]⟩⟩
      else ⟨200, ⟨[], []⟩⟩
    annot := fun r => if r = f1 then Except.ok (some 2) else Except.ok none }

/-- Witness for C1: the concrete leaf task builds one candidate from
the first second-hop edge, with the unavailable first-hop annotation
defaulting to 1 and the fetched second-hop annotation stored. -/
theorem c1_gen_candidate_witness :
    gen_get_final_rel c1env tmA tmB (target_params 5) e1 =
      Except.ok (some
        { sujet := "pizza"
          gen := "fromage"
          objet := "mozza"
          weight1 := 50
          weight2 := 30
          t := "isa"
          rel := "r_has_part"
          annotation_weight1 := (none : Option ℚ).getD 1
          annotation_weight2 := (some 2 : Option ℚ).getD 1 }) :=
  (c1_gen_candidate c1env tmA tmB (target_params 5) e1 none ⟨[], [f1]⟩ f1 []
    (some 2) 1 5 ⟨[], [e1]⟩ (by decide) (by decide) rfl (by decide)
    rfl (by decide)).1

/-- Claim C5: if one generalization leaf task raises, that task
contributes no candidate, while the candidates of its sibling bridge
tasks (the edges before and after it in the sorted first-hop list) and
of the other three strategies appear in the final aggregate
unchanged. -/
theorem c5_leaf_failure_isolated (env : Env) (s o : Term)
    (relId isaId : ℤ) (res : RelationResult) (l1 l2 : List Relation)
    (e : Relation) (err : Err)
    (hisa : relation_type_id env "r_isa" = Except.ok isaId)
    (hfetch : fetch_relation env o.name (target_params isaId) =
      Except.ok res)
    (hsort : List.insertionSort wRel res.relations = l1 ++ e :: l2)
    (hfail : gen_get_final_rel env s o (target_params relId) e =
      Except.error err) :
    run_all_inferences env s o relId =
      (collect_results
          (l1.map (gen_get_final_rel env s o (target_params relId))) ++
        collect_results
          (l2.map (gen_get_final_rel env s o (target_params relId)))) ++
      collect_strat (inference_by_specialization env s o relId) ++
      collect_strat (inference_by_transitivity env s o relId) ++
      collect_strat (inference_by_synonymy env s o relId) := by
  have hgen : inference_by_generalization env s o relId =
      Except.ok (collect_results ((l1 ++ e :: l2).map
        (gen_get_final_rel env s o (target_params relId)))) := by
    simp only [inference_by_generalization]
    rw [hisa, except_bind_ok, hfetch, except_bind_ok, hsort]
  have hsplit : collect_results ((l1 ++ e :: l2).map
      (gen_get_final_rel env s o (target_params relId))) =
      collect_results
        (l1.map (gen_get_final_rel env s o (target_params relId))) ++
      collect_results
        (l2.map (gen_get_final_rel env s o (target_params relId))) := by
    simp only [collect_results, List.map_append, List.filterMap_append,
      List.map_cons, List.filterMap_cons, hfail]
  simp only [run_all_inferences]
  rw [hgen]
  show collect_results ((l1 ++ e :: l2).map
      (gen_get_final_rel env s o (target_params relId))) ++ _ ++ _ ++ _ = _
  rw [hsplit]

/-- Second bridge term of the concrete failing-leaf run. -/
def tmG : Term := ⟨4, "garniture", 1, 5, none, none, none, none, none⟩

/-- First-hop edge `mozza --r_isa--> garniture`, weight 40, whose leaf
task will fail. -/
def e2 : Relation := ⟨102, 2, 4, 1, 40, tmB, tmG, rtIsa⟩

/-- Oracle for the C5 witness: two first-hop edges; the annotation
lookup for the second one raises a transport error. -/
def c5env : Env :=
  { node_by_name := fun n => if n = "pizza" then ⟨200, tmA⟩ else ⟨200, tmB⟩
    relation_types := [rtIsa, rtHasPart]
    relations_from := fun n p =>
      if n = "mozza" ∧ p = target_params 1 then ⟨200, ⟨[], [e1, e2]⟩⟩
      else ⟨200, ⟨[], []⟩⟩
    relations_between := fun s2 o2 p =>
      if s2 = "pizza" ∧ o2 = "fromage" ∧ p = target_params 5 then
        ⟨200, ⟨[], [f1]⟩⟩
      else ⟨200, ⟨[], []⟩⟩
    annot := fun r =>
      if r = e2 then Except.error (Err.transport 503) else Except.ok none }

/-- Witness for C5: the concrete aggregate with the failing second
leaf dropped and every sibling contribution kept. -/
theorem c5_leaf_failure_isolated_witness :
    run_all_inferences c5env tmA tmB 5 =
      (collect_results
          ([e1].map (gen_get_final_rel c5env tmA tmB (target_params 5))) ++
        collect_results
          (([] : List Relation).map
            (gen_get_final_rel c5env tmA tmB (target_params 5)))) ++
      collect_strat (inference_by_specialization c5env tmA tmB 5) ++
      collect_strat (inference_by_transitivity c5env tmA tmB 5) ++
      collect_strat (inference_by_synonymy c5env tmA tmB 5) :=
  c5_leaf_failure_isolated c5env tmA tmB 5 1 ⟨[], [e1, e2]⟩ [e1] [] e2
    (Err.transport 503) rfl (by decide) (by decide) (by decide)

/-- A successful second-hop fetch means the oracle answered 200 with
exactly the returned result. -/
theorem fetch_between_ok {env : Env} {a b : String} {p : EndpointParams}
    {res : RelationResult}
    (h : fetch_relation_between env a b p = Except.ok res) :
    (env.relations_between a b p).status = 200 ∧
      (env.relations_between a b p).data = res := by
  by_cases hs : (env.relations_between a b p).status = 200
  · refine ⟨hs, ?_⟩
    simp only [fetch_relation_between] at h
    rw [if_pos hs] at h
    simpa using h
  · simp only [fetch_relation_between] at h
    rw [if_neg hs] at h
    exact Except.noConfusion h

/-- A gathered leaf result that survives the filter is a successful
non-`None` return. -/
theorem collect_match_eq {r : Except Err (Option Inference)} {inf : Inference}
    (h : (match r with
      | Except.ok (some i) => some i
      | _ => none) = some inf) :
    r = Except.ok (some inf) := by
  cases r with
  | ok v =>
    cases v with
    | some i => simp_all
    | none => simp_all
  | error e => simp_all

/-- Every surviving candidate comes from a successful leaf result. -/
theorem mem_collect_results {rs : List (Except Err (Option Inference))}
    {inf : Inference} (h : inf ∈ collect_results rs) :
    Except.ok (some inf) ∈ rs := by
  simp only [collect_results, List.mem_filterMap] at h
  obtain ⟨r, hr, hm⟩ := h
  exact collect_match_eq hm ▸ hr

/-- Dissection of a successful generalization leaf: it performed a
second-hop fetch between the subject and the bridge, got a non-empty
edge list, and took its weight2 from the first returned edge. -/
theorem gen_leaf_shape (env : Env) (s o : Term) (params : EndpointParams)
    (rel : Relation) (inf : Inference)
    (h : gen_get_final_rel env s o params rel = Except.ok (some inf)) :
    ∃ res fr rest,
      fetch_relation_between env s.name rel.objet.name params =
        Except.ok res ∧
      res.relations = fr :: rest ∧ inf.weight2 = fr.w := by
  cases h1 : env.annot rel with
  | error e =>
    simp only [gen_get_final_rel, fetch_annot, h1, except_bind_error] at h
    exact Except.noConfusion h
  | ok a1 =>
    cases h2 : fetch_relation_between env s.name rel.objet.name params with
    | error e =>
      simp only [gen_get_final_rel, fetch_annot, h1, except_bind_ok, h2,
        except_bind_error] at h
      exact Except.noConfusion h
    | ok res =>
      cases h3 : res.relations with
      | nil =>
        simp only [gen_get_final_rel, fetch_annot, h1, except_bind_ok, h2,
          h3] at h
        simp at h
      | cons fr rest =>
        cases h4 : env.annot fr with
        | error e =>
          simp only [gen_get_final_rel, fetch_annot, h1, except_bind_ok, h2,
            h3, h4, except_bind_error] at h
          exact Except.noConfusion h
        | ok a2 =>
          refine ⟨res, fr, rest, rfl, h3, ?_⟩
          simp only [gen_get_final_rel, fetch_annot, h1, except_bind_ok, h2,
            h3, h4] at h
          simp only [Except.ok.injEq, Option.some.injEq] at h
          rw [← h]

/-- Every surviving candidate of the generalization strategy was built
by one of its leaf tasks. -/
theorem mem_gen_strategy {env : Env} {s o : Term} {relId : ℤ}
    {inf : Inference}
    (hinf : inf ∈ collect_strat (inference_by_generalization env s o relId)) :
    ∃ rel, gen_get_final_rel env s o (target_params relId) rel =
      Except.ok (some inf) := by
  cases hid : relation_type_id env "r_isa" with
  | error e =>
    rw [show inference_by_generalization env s o relId = Except.error e from by
      simp only [inference_by_generalization, hid, except_bind_error]] at hinf
    simp [collect_strat] at hinf
  | ok isaId =>
    cases hf : fetch_relation env o.name (target_params isaId) with
    | error e =>
      rw [show inference_by_generalization env s o relId = Except.error e from by
        simp only [inference_by_generalization, hid, except_bind_ok, hf,
          except_bind_error]] at hinf
      simp [collect_strat] at hinf
    | ok res =>
      rw [show inference_by_generalization env s o relId =
          Except.ok (collect_results
            ((List.insertionSort wRel res.relations).map
              (gen_get_final_rel env s o (target_params relId)))) from by
        simp only [inference_by_generalization, hid, except_bind_ok, hf]] at hinf
      simp only [collect_strat] at hinf
      obtain ⟨rel, _, hrel⟩ := List.mem_map.mp (mem_collect_results hinf)
      exact ⟨rel, hrel⟩

/-- Dissection of a successful specialization leaf: it performed a second-hop
fetch from the bridge to the object, got a non-empty edge list, and
took its weight2 from the first returned edge. -/
theorem spec_leaf_shape (env : Env) (s o : Term) (params : EndpointParams)
    (rel : Relation) (inf : Inference)
    (h : spec_get_final_rel env s o params rel = Except.ok (some inf)) :
    ∃ res fr rest,
      fetch_relation_between env rel.objet.name o.name params =
        Except.ok res ∧
      res.relations = fr :: rest ∧ inf.weight2 = fr.w := by
  cases h1 : env.annot rel with
  | error e =>
    simp only [spec_get_final_rel, fetch_annot, h1, except_bind_error] at h
    exact Except.noConfusion h
  | ok a1 =>
    cases h2 : fetch_relation_between env rel.objet.name o.name params with
    | error e =>
      simp only [spec_get_final_rel, fetch_annot, h1, except_bind_ok, h2,
        except_bind_error] at h
      exact Except.noConfusion h
    | ok res =>
      cases h3 : res.relations with
      | nil =>
        simp only [spec_get_final_rel, fetch_annot, h1, except_bind_ok, h2,
          h3] at h
        simp at h
      | cons fr rest =>
        cases h4 : env.annot fr with
        | error e =>
          simp only [spec_get_final_rel, fetch_annot, h1, except_bind_ok, h2,
            h3, h4, except_bind_error] at h
          exact Except.noConfusion h
        | ok a2 =>
          refine ⟨res, fr, rest, rfl, h3, ?_⟩
          simp only [spec_get_final_rel, fetch_annot, h1, except_bind_ok, h2,
            h3, h4] at h
          simp only [Except.ok.injEq, Option.some.injEq] at h
          rw [← h]

/-- Dissection of a successful transitivity leaf: it performed a second-hop
fetch from the bridge to the object, got a non-empty edge list, and
took its weight2 from the first returned edge. -/
theorem trans_leaf_shape (env : Env) (s o : Term) (params : EndpointParams)
    (rel : Relation) (inf : Inference)
    (h : trans_get_final_rel env s o params rel = Except.ok (some inf)) :
    ∃ res fr rest,
      fetch_relation_between env rel.objet.name o.name params =
        Except.ok res ∧
      res.relations = fr :: rest ∧ inf.weight2 = fr.w := by
  cases h1 : env.annot rel with
  | error e =>
    simp only [trans_get_final_rel, fetch_annot, h1, except_bind_error] at h
    exact Except.noConfusion h
  | ok a1 =>
    cases h2 : fetch_relation_between env rel.objet.name o.name params with
    | error e =>
      simp only [trans_get_final_rel, fetch_annot, h1, except_bind_ok, h2,
        except_bind_error] at h
      exact Except.noConfusion h
    | ok res =>
      cases h3 : res.relations with
      | nil =>
        simp only [trans_get_final_rel, fetch_annot, h1, except_bind_ok, h2,
          h3] at h
        simp at h
      | cons fr rest =>
        cases h4 : env.annot fr with
        | error e =>
          simp only [trans_get_final_rel, fetch_annot, h1, except_bind_ok, h2,
            h3, h4, except_bind_error] at h
          exact Except.noConfusion h
        | ok a2 =>
          refine ⟨res, fr, rest, rfl, h3, ?_⟩
          simp only [trans_get_final_rel, fetch_annot, h1, except_bind_ok, h2,
            h3, h4] at h
          simp only [Except.ok.injEq, Option.some.injEq] at h
          rw [← h]

/-- Dissection of a successful synonymy leaf: it performed a second-hop
fetch from the bridge to the object, got a non-empty edge list, and
took its weight2 from the first returned edge. -/
theorem syn_leaf_shape (env : Env) (s o : Term) (params : EndpointParams)
    (rel : Relation) (inf : Inference)
    (h : syn_get_final_rel env s o params rel = Except.ok (some inf)) :
    ∃ res fr rest,
      fetch_relation_between env rel.objet.name o.name params =
        Except.ok res ∧
      res.relations = fr :: rest ∧ inf.weight2 = fr.w := by
  cases h1 : env.annot rel with
  | error e =>
    simp only [syn_get_final_rel, fetch_annot, h1, except_bind_error] at h
    exact Except.noConfusion h
  | ok a1 =>
    cases h2 : fetch_relation_between env rel.objet.name o.name params with
    | error e =>
      simp only [syn_get_final_rel, fetch_annot, h1, except_bind_ok, h2,
        except_bind_error] at h
      exact Except.noConfusion h
    | ok res =>
      cases h3 : res.relations with
      | nil =>
        simp only [syn_get_final_rel, fetch_annot, h1, except_bind_ok, h2,
          h3] at h
        simp at h
      | cons fr rest =>
        cases h4 : env.annot fr with
        | error e =>
          simp only [syn_get_final_rel, fetch_annot, h1, except_bind_ok, h2,
            h3, h4, except_bind_error] at h
          exact Except.noConfusion h
        | ok a2 =>
          refine ⟨res, fr, rest, rfl, h3, ?_⟩
          simp only [syn_get_final_rel, fetch_annot, h1, except_bind_ok, h2,
            h3, h4] at h
          simp only [Except.ok.injEq, Option.some.injEq] at h
          rw [← h]

/-- Every surviving candidate of the specialization strategy was built by one of
its leaf tasks. -/
theorem mem_spec_strategy {env : Env} {s o : Term} {relId : ℤ}
    {inf : Inference}
    (hinf : inf ∈ collect_strat (inference_by_specialization env s o relId)) :
    ∃ rel, spec_get_final_rel env s o (target_params relId) rel =
      Except.ok (some inf) := by
  cases hid : relation_type_id env "r_hypo" with
  | error e =>
    rw [show inference_by_specialization env s o relId = Except.error e from by
      simp only [inference_by_specialization, hid, except_bind_error]] at hinf
    simp [collect_strat] at hinf
  | ok tid =>
    cases hf : fetch_relation env s.name (target_params tid) with
    | error e =>
      rw [show inference_by_specialization env s o relId = Except.error e from by
        simp only [inference_by_specialization, hid, except_bind_ok, hf,
          except_bind_error]] at hinf
      simp [collect_strat] at hinf
    | ok res =>
      rw [show inference_by_specialization env s o relId =
          Except.ok (collect_results
            ((List.insertionSort wRel res.relations).map
              (spec_get_final_rel env s o (target_params relId)))) from by
        simp only [inference_by_specialization, hid, except_bind_ok, hf]] at hinf
      simp only [collect_strat] at hinf
      obtain ⟨rel, _, hrel⟩ := List.mem_map.mp (mem_collect_results hinf)
      exact ⟨rel, hrel⟩

/-- Every surviving candidate of the synonymy strategy was built by one of
its leaf tasks. -/
theorem mem_syn_strategy {env : Env} {s o : Term} {relId : ℤ}
    {inf : Inference}
    (hinf : inf ∈ collect_strat (inference_by_synonymy env s o relId)) :
    ∃ rel, syn_get_final_rel env s o (target_params relId) rel =
      Except.ok (some inf) := by
  cases hid : relation_type_id env "r_syn" with
  | error e =>
    rw [show inference_by_synonymy env s o relId = Except.error e from by
      simp only [inference_by_synonymy, hid, except_bind_error]] at hinf
    simp [collect_strat] at hinf
  | ok tid =>
    cases hf : fetch_relation env s.name (target_params tid) with
    | error e =>
      rw [show inference_by_synonymy env s o relId = Except.error e from by
        simp only [inference_by_synonymy, hid, except_bind_ok, hf,
          except_bind_error]] at hinf
      simp [collect_strat] at hinf
    | ok res =>
      rw [show inference_by_synonymy env s o relId =
          Except.ok (collect_results
            ((List.insertionSort wRel res.relations).map
              (syn_get_final_rel env s o (target_params relId)))) from by
        simp only [inference_by_synonymy, hid, except_bind_ok, hf]] at hinf
      simp only [collect_strat] at hinf
      obtain ⟨rel, _, hrel⟩ := List.mem_map.mp (mem_collect_results hinf)
      exact ⟨rel, hrel⟩

/-- Every surviving candidate of the transitivity strategy was built by
one of its leaf tasks. -/
theorem mem_trans_strategy {env : Env} {s o : Term} {relId : ℤ}
    {inf : Inference}
    (hinf : inf ∈ collect_strat (inference_by_transitivity env s o relId)) :
    ∃ rel, trans_get_final_rel env s o (target_params relId) rel =
      Except.ok (some inf) := by
  cases hf : fetch_relation env s.name (target_params relId) with
  | error e =>
    rw [show inference_by_transitivity env s o relId = Except.error e from by
      simp only [inference_by_transitivity, hf, except_bind_error]] at hinf
    simp [collect_strat] at hinf
  | ok res =>
    rw [show inference_by_transitivity env s o relId =
        Except.ok (collect_results
          ((List.insertionSort wRel res.relations).map
            (trans_get_final_rel env s o (target_params relId)))) from by
      simp only [inference_by_transitivity, hf, except_bind_ok]] at hinf
    simp only [collect_strat] at hinf
    obtain ⟨rel, _, hrel⟩ := List.mem_map.mp (mem_collect_results hinf)
    exact ⟨rel, hrel⟩

/-- The contract the spec states for the first hop only: the access
port returns no edge below the filter's minimum weight. -/
def honors_min_weight (env : Env) : Prop :=
  ∀ (a b : String) (p : EndpointParams),
    (env.relations_between a b p).status = 200 →
    ∀ r ∈ (env.relations_between a b p).data.relations,
      ∀ m : ℤ, p.min_weight = some m → (m : ℚ) ≤ r.w

/-- Weight bound for the generalization strategy under the min-weight
contract. -/
theorem gen_weight2_ge_one {env : Env} {s o : Term} {relId : ℤ}
    (hmin : honors_min_weight env) :
    ∀ inf ∈ collect_strat (inference_by_generalization env s o relId),
      1 ≤ inf.weight2 := by
  intro inf hinf
  obtain ⟨rel, hrel⟩ := mem_gen_strategy hinf
  obtain ⟨res, fr, rest, h2, h3, hw⟩ := gen_leaf_shape env s o _ rel inf hrel
  obtain ⟨hstat, hdata⟩ := fetch_between_ok h2
  have hfr : fr ∈ (env.relations_between s.name rel.objet.name
      (target_params relId)).data.relations := by
    rw [hdata, h3]
    exact List.mem_cons_self fr rest
  have hb := hmin s.name rel.objet.name (target_params relId) hstat fr hfr 1 rfl
  rw [hw]
  exact_mod_cast hb

/-- Weight bound for the specialization strategy under the min-weight
contract. -/
theorem spec_weight2_ge_one {env : Env} {s o : Term} {relId : ℤ}
    (hmin : honors_min_weight env) :
    ∀ inf ∈ collect_strat (inference_by_specialization env s o relId),
      1 ≤ inf.weight2 := by
  intro inf hinf
  obtain ⟨rel, hrel⟩ := mem_spec_strategy hinf
  obtain ⟨res, fr, rest, h2, h3, hw⟩ := spec_leaf_shape env s o _ rel inf hrel
  obtain ⟨hstat, hdata⟩ := fetch_between_ok h2
  have hfr : fr ∈ (env.relations_between rel.objet.name o.name
      (target_params relId)).data.relations := by
    rw [hdata, h3]
    exact List.mem_cons_self fr rest
  have hb := hmin rel.objet.name o.name (target_params relId) hstat fr hfr 1 rfl
  rw [hw]
  exact_mod_cast hb

/-- Weight bound for the transitivity strategy under the min-weight
contract. -/
theorem trans_weight2_ge_one {env : Env} {s o : Term} {relId : ℤ}
    (hmin : honors_min_weight env) :
    ∀ inf ∈ collect_strat (inference_by_transitivity env s o relId),
      1 ≤ inf.weight2 := by
  intro inf hinf
  obtain ⟨rel, hrel⟩ := mem_trans_strategy hinf
  obtain ⟨res, fr, rest, h2, h3, hw⟩ := trans_leaf_shape env s o _ rel inf hrel
  obtain ⟨hstat, hdata⟩ := fetch_between_ok h2
  have hfr : fr ∈ (env.relations_between rel.objet.name o.name
      (target_params relId)).data.relations := by
    rw [hdata, h3]
    exact List.mem_cons_self fr rest
  have hb := hmin rel.objet.name o.name (target_params relId) hstat fr hfr 1 rfl
  rw [hw]
  exact_mod_cast hb

/-- Weight bound for the synonymy strategy under the min-weight
contract. -/
theorem syn_weight2_ge_one {env : Env} {s o : Term} {relId : ℤ}
    (hmin : honors_min_weight env) :
    ∀ inf ∈ collect_strat (inference_by_synonymy env s o relId),
      1 ≤ inf.weight2 := by
  intro inf hinf
  obtain ⟨rel, hrel⟩ := mem_syn_strategy hinf
  obtain ⟨res, fr, rest, h2, h3, hw⟩ := syn_leaf_shape env s o _ rel inf hrel
  obtain ⟨hstat, hdata⟩ := fetch_between_ok h2
  have hfr : fr ∈ (env.relations_between rel.objet.name o.name
      (target_params relId)).data.relations := by
    rw [hdata, h3]
    exact List.mem_cons_self fr rest
  have hb := hmin rel.objet.name o.name (target_params relId) hstat fr hfr 1 rfl
  rw [hw]
  exact_mod_cast hb

/-- Claim C10: every second hop of every strategy is issued with the
same filter bounds as the first hop — the shared deep-copied default
filter, minimum weight 1 and result limit 100, with only the type
filter replaced — and consequently, whenever the access port honors the
minimum-weight bound, no candidate is ever confirmed by a second-hop
edge of weight below 1. -/
theorem c10_second_hop_bounds :
    (∀ id1 id2 : ℤ,
      (target_params id1).min_weight = some 1 ∧
      (target_params id1).limit = some 100 ∧
      (target_params id1).min_weight = (target_params id2).min_weight ∧
      (target_params id1).limit = (target_params id2).limit ∧
      (target_params id1).min_weight = default_params.min_weight ∧
      (target_params id1).limit = default_params.limit) ∧
    (∀ (env : Env) (s o : Term) (relId : ℤ),
      honors_min_weight env →
      (∀ inf ∈ collect_strat (inference_by_generalization env s o relId),
        1 ≤ inf.weight2) ∧
      (∀ inf ∈ collect_strat (inference_by_specialization env s o relId),
        1 ≤ inf.weight2) ∧
      (∀ inf ∈ collect_strat (inference_by_transitivity env s o relId),
        1 ≤ inf.weight2) ∧
      (∀ inf ∈ collect_strat (inference_by_synonymy env s o relId),
        1 ≤ inf.weight2)) :=
  ⟨fun _ _ => ⟨rfl, rfl, rfl, rfl, rfl, rfl⟩,
   fun _ _ _ _ hmin =>
    ⟨gen_weight2_ge_one hmin, spec_weight2_ge_one hmin,
     trans_weight2_ge_one hmin, syn_weight2_ge_one hmin⟩⟩

/-- Oracle for the C10 witness: one generalization path; the
second-hop oracle only answers non-emptily when the minimum-weight
bound 1 is present, and honors it. -/
def c10env : Env :=
  { node_by_name := fun n => if n = "pizza" then ⟨200, tmA⟩ else ⟨200, tmB⟩
    relation_types := [rtIsa, rtHasPart]
    relations_from := fun n p =>
      if n = "mozza" ∧ p = target_params 1 then ⟨200, ⟨[], [e1]⟩⟩
      else ⟨200, ⟨[], []⟩⟩
    relations_between := fun _ _ p =>
      if p.min_weight = some 1 then ⟨200, ⟨[], [f1]⟩⟩ else ⟨200, ⟨[], []⟩⟩
    annot := fun _ => Except.ok none }

/-- The candidate produced by the concrete C10 run. -/
def c10cand : Inference :=
  ⟨"pizza", "mozza", "fromage", 50, 30, "isa", "r_has_part", 0, 1, 1⟩

/-- Witness for C10: on the concrete min-weight-honoring oracle the
emitted candidate's second-hop weight is at least 1. -/
theorem c10_second_hop_bounds_witness : (1 : ℚ) ≤ c10cand.weight2 :=
  (c10_second_hop_bounds.2 c10env tmA tmB 5 (by
    intro a b p hstat r hr m hm
    by_cases hp : p.min_weight = some 1
    · have hr1 : r = f1 := by
        simp only [c10env, hp] at hr
        simpa using hr
      have hm1 : m = 1 := by
        rw [hp] at hm
        exact (Option.some.inj hm).symm
      rw [hr1, hm1]
      norm_num [f1]
    · simp only [c10env] at hr
      rw [if_neg hp] at hr
      simp at hr)).1 c10cand (by decide)

/-- The single candidate of the concrete C2 run. -/
def c2cand : Inference :=
  ⟨"pizza", "mozza", "fromage", 50, 30, "isa", "r_has_part", 0, 1, 1⟩

/-- Witness for C2: the concrete one-candidate run is scored
successfully by `normalize_and_score`. -/
theorem c2_scores_in_unit_interval_witness :
    normalize_and_score [c2cand] =
      Except.ok ([c2cand].map (score_with
        ((List.map (fun i => i.weight1) ([] : List Inference)).foldl max
          c2cand.weight1)
        ((List.map (fun i => i.weight2) ([] : List Inference)).foldl max
          c2cand.weight2))) :=
  (c2_scores_in_unit_interval c2cand [] (by decide) (by decide)).1
